import Mathlib

set_option maxRecDepth 100000
set_option maxHeartbeats 2000000

/-!
Verification of the URL-shortener core: a shallow embedding of the
short-code generator/decoder (the hashids algorithm instantiated with the
service's configured salt, minimum length and alphabet), the URL record
model with its access-policy predicates, and the service-layer operations
(create, update, delete, redirect, click accounting), together with proofs
of the specified properties.

Strings are modelled as `List Char` inside the code generator (mirroring
python's character-sequence view of `str`); machine integers are `Nat`
(python integers are unbounded).  The database is modelled as a list of
rows plus a monotone identity allocator; SQLAlchemy's commit-time
`onupdate` refresh of `updated_at` fires exactly when a flushed row has a
net attribute change, which is modelled explicitly.
-/

/-! ## Configuration (config.py)

`HASHIDS_SALT` and `HASHIDS_MIN_LENGTH` are the defaults from
`config.Settings`; the alphabet literal is the one passed at the
`Hashids(...)` construction site in services/url_service.py. -/

def HASHIDS_SALT : String := "your-secret-salt-change-in-production"

def HASHIDS_MIN_LENGTH : Nat := 6

def RAW_ALPHABET : List Char :=
  "abcdefghijklmnopqrstuvwxyzABCDEFGHIJKLMNOPQRSTUVWXYZ0123456789".toList

def SALT : List Char := HASHIDS_SALT.toList

/-! ## The hashids algorithm (the `hashids` pip package, v1.3.1)

The source wraps `hashids.Hashids(salt, min_length, alphabet)`; the
package itself is a dependency, so its published algorithm is embedded
here function by function (`_reorder`, `_hash`, `_unhash`, `_split`,
`_ensure_length`, `_encode`, `_decode` and the `__init__` alphabet
set-up). -/

/-- One in-place swap of positions `i` and `j` of a list (python's
`string[i], string[j] = string[j], string[i]`); out-of-range indices leave
the list unchanged (never happens on the calls the algorithm makes). -/
def listSwap (s : List Char) (i j : Nat) : List Char :=
  match s[i]?, s[j]? with
  | some a, some b => (s.set i b).set j a
  | _, _ => s

/-- The descending loop of `_reorder`: the first argument is python's loop
variable `i` (running `len(s)-1, …, 1`), `index` and `isum` are python's
`index` and `integer_sum`. -/
def reorderAux (salt : List Char) : Nat → List Char → Nat → Nat → List Char
  | 0, s, _, _ => s
  | i + 1, s, index, isum =>
      let integer := (salt.getD index ' ').toNat
      let isum' := isum + integer
      let j := (integer + index + isum') % (i + 1)
      reorderAux salt i (listSwap s (i + 1) j) ((index + 1) % salt.length) isum'

/-- `_reorder(string, salt)`: hashids' salt-driven consistent shuffle. -/
def reorder (s salt : List Char) : List Char :=
  if salt.length = 0 then s
  else reorderAux salt (s.length - 1) s 0 0

/-- `int(ceil(float(n) / 3.5))`, the separator-count ratio; exact in the
range used (the float arithmetic is exact for these small values). -/
def indexFromRatioSep (n : Nat) : Nat := (2 * n + 6) / 7

/-- `int(ceil(float(n) / 12))`, the guard-count ratio. -/
def indexFromRatioGuard (n : Nat) : Nat := (n + 11) / 12

/-- `__init__`: candidate separators `"cfhistuCFHISTU"` restricted to the
configured alphabet. -/
def sepsInAlphabet : List Char :=
  "cfhistuCFHISTU".toList.filter (fun c => decide (c ∈ RAW_ALPHABET))

/-- `__init__`: the alphabet with duplicates and separator characters
removed (first occurrences kept, as python's `alphabet.index(x) == i`
test does). -/
def alphabetDedup : List Char :=
  RAW_ALPHABET.eraseDups.filter (fun c => decide (c ∉ sepsInAlphabet))

/-- `__init__`: separators after the salt shuffle. -/
def separatorsShuffled : List Char := reorder sepsInAlphabet SALT

/-- `__init__`: the separator/alphabet rebalancing branch (a no-op for the
configured 48-letter alphabet and 14 separators, but embedded
faithfully). Returns `(separators, alphabet)`. -/
def initSepAlpha : List Char × List Char :=
  let alphabet := alphabetDedup
  let separators := separatorsShuffled
  if separators.length = 0 ∨ separators.length < indexFromRatioSep alphabet.length then
    let m := indexFromRatioSep alphabet.length
    let m := if m = 1 then 2 else m
    if separators.length < m then
      let splitAt := m - separators.length
      (separators ++ alphabet.take splitAt, alphabet.drop splitAt)
    else (separators, alphabet)
  else (separators, alphabet)

def SEPARATORS : List Char := initSepAlpha.1

/-- `__init__`: the alphabet after the salt shuffle, before guards are
peeled off. -/
def alphabetShuffled : List Char := reorder initSepAlpha.2 SALT

/-- `__init__`: the guard characters (first `ceil(len/12)` letters of the
shuffled alphabet; the `len(alphabet) < 3` branch that would take them
from the separators instead is embedded faithfully). -/
def GUARDS : List Char :=
  if alphabetShuffled.length < 3 then
    separatorsShuffled.take (indexFromRatioGuard alphabetShuffled.length)
  else
    alphabetShuffled.take (indexFromRatioGuard alphabetShuffled.length)

/-- `__init__`: the working alphabet used by `_encode`/`_decode`. -/
def ALPHABET : List Char :=
  if alphabetShuffled.length < 3 then
    alphabetShuffled
  else
    alphabetShuffled.drop (indexFromRatioGuard alphabetShuffled.length)

/-- `_hash(number, alphabet)` with a structural fuel so the kernel can
evaluate it (`fuel > n` always suffices: the dividend shrinks strictly
each round).  The `alphabet.length ≤ 1` disjunct is only a termination
guard: python would loop forever there, and the working alphabet always
has 44 letters. -/
def hashDigitsAux (alpha : List Char) : Nat → Nat → List Char
  | 0, n => [alpha.getD (n % alpha.length) ' ']
  | fuel + 1, n =>
      if n / alpha.length = 0 ∨ alpha.length ≤ 1 then
        [alpha.getD (n % alpha.length) ' ']
      else
        hashDigitsAux alpha fuel (n / alpha.length) ++ [alpha.getD (n % alpha.length) ' ']

/-- `_hash(number, alphabet)`: render `n` in base `len(alphabet)`, most
significant digit first, as alphabet letters (a do-while, so `0` still
yields one digit). -/
def hashDigits (alpha : List Char) (n : Nat) : List Char :=
  hashDigitsAux alpha (n + 1) n

/-- python's `list.index`: index of the first occurrence, `none` when the
element is absent (where python raises `ValueError`). -/
def idxOfOpt (alpha : List Char) (c : Char) : Option Nat :=
  match alpha with
  | [] => none
  | a :: rest => if a = c then some 0 else (idxOfOpt rest c).map (· + 1)

/-- `_unhash(hashed, alphabet)` with explicit accumulator (python's
`number`); `none` models the `ValueError` that `alphabet.index` raises on
a foreign character. -/
def unhashOpt (alpha : List Char) : List Char → Nat → Option Nat
  | [], acc => some acc
  | c :: rest, acc =>
      match idxOfOpt alpha c with
      | none => none
      | some p => unhashOpt alpha rest (acc * alpha.length + p)

/-- `_split(string, splitters)`: split at any of the splitter characters,
keeping empty parts (a split on `"abc"` at `'b'` gives `["a", "c"]`, and
the result always has at least one part). -/
def splitOn (seps : List Char) : List Char → List (List Char)
  | [] => [[]]
  | c :: rest =>
      if c ∈ seps then [] :: splitOn seps rest
      else
        match splitOn seps rest with
        | [] => [[c]]
        | p :: ps => (c :: p) :: ps

/-- `values_hash = sum(x % (i + 100) for i, x in enumerate(values))`. -/
def valuesHash : List Nat → Nat → Nat
  | [], _ => 0
  | v :: rest, i => v % (i + 100) + valuesHash rest (i + 1)

/-- The `while len(encoded) < min_length` padding loop of
`_ensure_length`.  `fuel` bounds the iterations (each iteration either
reaches the minimum length exactly or grows the string by the alphabet
length, so `HASHIDS_MIN_LENGTH + 1` iterations always suffice for a
nonempty alphabet; python's loop has no bound). -/
def padLoop (fuel : Nat) (alpha encoded : List Char) (splitAt : Nat) : List Char :=
  match fuel with
  | 0 => encoded
  | fuel + 1 =>
      if encoded.length < HASHIDS_MIN_LENGTH then
        let alpha' := reorder alpha alpha
        let e := alpha'.drop splitAt ++ encoded ++ alpha'.take splitAt
        let e' :=
          if HASHIDS_MIN_LENGTH < e.length then
            let fromIndex := (e.length - HASHIDS_MIN_LENGTH) / 2
            (e.drop fromIndex).take HASHIDS_MIN_LENGTH
          else e
        padLoop fuel alpha' e' splitAt
      else encoded

/-- `_ensure_length(encoded, min_length, alphabet, guards, values_hash)`:
prepend a guard, append a second guard if still short, then pad with
shuffled alphabet halves. -/
def ensureLength (encoded : List Char) (alpha : List Char) (vh : Nat) : List Char :=
  let gi := (vh + (encoded.getD 0 ' ').toNat) % GUARDS.length
  let e1 := GUARDS.getD gi ' ' :: encoded
  let e2 :=
    if e1.length < HASHIDS_MIN_LENGTH then
      e1 ++ [GUARDS.getD ((vh + (e1.getD 2 ' ').toNat) % GUARDS.length) ' ']
    else e1
  padLoop (HASHIDS_MIN_LENGTH + 1) alpha e2 (alpha.length / 2)

/-- The per-value loop of `_encode`: returns the concatenation of
`digits ++ [separator]` blocks together with the final reordered
alphabet (which `_ensure_length` receives). -/
def encodeLoop (salt : List Char) (lottery : Char) (seps : List Char) :
    List Nat → Nat → List Char → List Char × List Char
  | [], _, alpha => ([], alpha)
  | v :: rest, i, alpha =>
      let seed := (lottery :: salt ++ alpha).take alpha.length
      let alpha' := reorder alpha seed
      let last := hashDigits alpha' v
      let v' := v % ((last.headD ' ').toNat + i)
      let sep := seps.getD (v' % seps.length) ' '
      let next := encodeLoop salt lottery seps rest (i + 1) alpha'
      (last ++ sep :: next.1, next.2)

/-- `_encode(values, salt, min_length, alphabet, separators, guards)` for
a nonempty list of values. -/
def encodeCore (values : List Nat) : List Char :=
  let vh := valuesHash values 0
  let lottery := ALPHABET.getD (vh % ALPHABET.length) ' '
  let body := encodeLoop SALT lottery SEPARATORS values 0 ALPHABET
  let encoded := (lottery :: body.1).dropLast
  if HASHIDS_MIN_LENGTH ≤ encoded.length then encoded
  else ensureLength encoded body.2 vh

/-- `Hashids.encode(*values)`: empty input (or, in python, a non-integer)
encodes to the empty string. -/
def hashidsEncode (values : List Nat) : List Char :=
  if values = [] then [] else encodeCore values

/-- The per-part loop of `_decode`: `none` models a `ValueError` escaping
from `_unhash`. -/
def decodeLoop (salt : List Char) (lottery : Char) :
    List (List Char) → List Char → Option (List Nat)
  | [], _ => some []
  | part :: rest, alpha =>
      let seed := (lottery :: salt ++ alpha).take alpha.length
      let alpha' := reorder alpha seed
      match unhashOpt alpha' part 0 with
      | none => none
      | some n => (decodeLoop salt lottery rest alpha').map (n :: ·)

/-- `_decode(hashid, salt, alphabet, separators, guards)`: strip the
guard-delimited padding, then read the lottery character and unhash the
separator-delimited parts. -/
def decodeCore (s : List Char) : Option (List Nat) :=
  let parts := splitOn GUARDS s
  let core :=
    if 2 ≤ parts.length ∧ parts.length ≤ 3 then parts.getD 1 []
    else parts.getD 0 []
  match core with
  | [] => some []
  | lottery :: rest => decodeLoop SALT lottery (splitOn SEPARATORS rest) ALPHABET

/-- `Hashids.decode(hashid)`: empty result on empty input, on a
`ValueError`, and on failure of the re-encode round-trip check. -/
def hashidsDecode (s : List Char) : List Nat :=
  if s = [] then []
  else
    match decodeCore s with
    | none => []
    | some ns => if hashidsEncode ns = s then ns else []

/-! ## services/url_service.py: the code generator wrappers -/

/-- `generate_short_code(url_id)`: `hashids.encode(url_id)`. -/
def generate_short_code (url_id : Nat) : String :=
  String.mk (hashidsEncode [url_id])

/-- `decode_short_code(short_code)`: `decoded[0] if decoded else None`,
with every exception mapped to `None`. -/
def decode_short_code (short_code : String) : Option Nat :=
  match hashidsDecode short_code.toList with
  | [] => none
  | n :: _ => some n

/-! ## models/url.py: the URL record

`datetime` values are modelled by their timestamp in the UTC reference
frame together with their awareness flag: for a timezone-aware value,
`utcValue` is the instant it denotes; for a naive value, `utcValue` is its
face value read as UTC (which is exactly how `URL.is_expired` compares
naive values, and what the spec prescribes).  `now` is always
`datetime.now(timezone.utc)`, i.e. an aware value, so it is passed as a
bare `Int` instant. -/

structure PyDateTime where
  utcValue : Int
  aware : Bool
deriving DecidableEq

structure URL where
  id : Nat
  long_url : String
  short_code : String
  custom_alias : Option String
  title : Option String
  description : Option String
  user_id : Option Nat
  creator_ip : Option String
  is_active : Bool
  click_count : Nat
  created_at : PyDateTime
  updated_at : PyDateTime
  last_accessed_at : Option PyDateTime
  expires_at : Option PyDateTime
  password_hash : Option String
  max_clicks : Option Nat
deriving DecidableEq

/-- Truthiness of python's `Optional[str]`: `None` and `""` are falsy.
`verify_password` and the redirect endpoint test `Optional[str]` values
with bare `if`, so the model keeps the same notion. -/
def optStrTruthy : Option String → Bool
  | none => false
  | some s => !(s == "")

/-- `URL.is_expired`: false when `expires_at` is unset; otherwise `now`
strictly after `expires_at`.  The two python branches (naive versus aware
stored value) both reduce to the same comparison of UTC-reference values
under this encoding: `now.replace(tzinfo=None)` has the UTC face value of
`now`, and a naive `expires_at` is compared by face value. -/
def URL.is_expired (u : URL) (now : Int) : Bool :=
  match u.expires_at with
  | none => false
  | some e =>
      if e.aware = false then decide (now > e.utcValue)
      else decide (now > e.utcValue)

/-- `URL.has_reached_max_clicks`: false when `max_clicks` is unset;
otherwise `click_count >= max_clicks`. -/
def URL.has_reached_max_clicks (u : URL) : Bool :=
  match u.max_clicks with
  | none => false
  | some m => decide (u.click_count ≥ m)

/-- `URL.is_accessible`: active, not expired, and under the click cap. -/
def URL.is_accessible (u : URL) (now : Int) : Bool :=
  u.is_active && !(u.is_expired now) && !u.has_reached_max_clicks

/-! ## services/url_service.py: passwords, lookup, click accounting

`bcrypt.hashpw` and `bcrypt.checkpw` are external primitives (randomised
salted hashing); they enter the model as explicit function parameters
`hashpw`/`checkpw`, exactly as the spec treats the credential guard. -/

/-- `verify_password(url, password)`: pass-through `True` when the stored
digest is falsy (absent), otherwise `bcrypt.checkpw(password, digest)`. -/
def verify_password (checkpw : String → String → Bool) (url : URL) (password : String) : Bool :=
  if !(optStrTruthy url.password_hash) then true
  else checkpw password (url.password_hash.getD "")

/-- Row predicate of `get_url_by_code`'s filter:
`(URL.short_code == code) | (URL.custom_alias == code)`. -/
def matchesCode (code : String) (u : URL) : Bool :=
  u.short_code == code || u.custom_alias == some code

/-- `get_url_by_code(db, code)`: first row matching the code or alias. -/
def get_url_by_code (db : List URL) (code : String) : Option URL :=
  db.find? (matchesCode code)

/-- `get_url_by_id(db, url_id)`: first row with the given primary key. -/
def get_url_by_id (db : List URL) (url_id : Nat) : Option URL :=
  db.find? (fun u => u.id == url_id)

/-- The column changes of `increment_click_count` on the found row, plus
the commit-time `onupdate` refresh of `updated_at` (the row always has a
net change, since `click_count` grows). -/
def recordClick (u : URL) (now : Int) : URL :=
  { u with
    click_count := u.click_count + 1
    last_accessed_at := some ⟨now, true⟩
    updated_at := ⟨now, true⟩ }

/-- `increment_click_count(db, url)`: bump the click counter and stamp
`last_accessed_at`, persisting at commit. -/
def increment_click_count (db : List URL) (url : URL) (now : Int) : List URL :=
  db.map fun r => if r.id = url.id then recordClick r now else r

/-! ## services/url_service.py: create -/

/-- Input schema `URLCreate` (schemas/url.py), after pydantic validation.
The validation constraints themselves (URL well-formedness, alias
pattern, `max_clicks > 0`, password length ≥ 4) live in the HTTP layer
and are not re-checked by the service code modelled here. -/
structure URLCreate where
  long_url : String
  custom_alias : Option String
  title : Option String
  description : Option String
  expires_at : Option PyDateTime
  max_clicks : Option Nat
  password : Option String
deriving DecidableEq

/-- The database: the `urls` table plus the store's monotone identity
allocator (`flush` assigns `nextId` to a newly added row). -/
structure DBState where
  rows : List URL
  nextId : Nat
deriving DecidableEq

inductive CreateError where
  | aliasTaken
deriving DecidableEq

/-- The insert path of `create_short_url` after the alias pre-check:
allocate the identity, backfill the short code, commit. -/
def createRow (hashpw : String → String) (st : DBState) (data : URLCreate)
    (creatorIp : Option String) (now : Int) : Except CreateError URL × DBState :=
  let passwordHash :=
    match data.password with
    | none => none
    | some p => if p == "" then none else some (hashpw p)
  let newId := st.nextId
  let u : URL :=
    { id := newId
      long_url := data.long_url
      short_code := generate_short_code newId
      custom_alias := data.custom_alias
      title := data.title
      description := data.description
      user_id := none
      creator_ip := creatorIp
      is_active := true
      click_count := 0
      created_at := ⟨now, true⟩
      updated_at := ⟨now, true⟩
      last_accessed_at := none
      expires_at := data.expires_at
      password_hash := passwordHash
      max_clicks := data.max_clicks }
  (Except.ok u, { rows := st.rows ++ [u], nextId := newId + 1 })

/-- `create_short_url(db, url_data, creator_ip)`: reject when a given
custom alias collides with any existing row's `custom_alias` or
`short_code` (active or soft-deleted alike), else insert. -/
def create_short_url (hashpw : String → String) (st : DBState) (data : URLCreate)
    (creatorIp : Option String) (now : Int) : Except CreateError URL × DBState :=
  match data.custom_alias with
  | some a =>
      match st.rows.find? (fun r => r.custom_alias == some a || r.short_code == a) with
      | some _ => (Except.error CreateError.aliasTaken, st)
      | none => createRow hashpw st data creatorIp now
  | none => createRow hashpw st data creatorIp now

/-! ## services/url_service.py: update and delete -/

/-- Input schema `URLUpdate` (schemas/url.py) under
`model_dump(exclude_unset=True)`: the outer `Option` is "was the field
present in the request", the inner one is the (nullable) value.
`is_active` is modelled as present-with-a-boolean; an explicit JSON
`null` for it would violate the column's NOT NULL constraint in the store
and is outside the model. -/
structure URLUpdate where
  title : Option (Option String)
  description : Option (Option String)
  is_active : Option Bool
  expires_at : Option (Option PyDateTime)
  max_clicks : Option (Option Nat)
deriving DecidableEq

/-- The `setattr` loop of `update_url`: apply exactly the provided
fields. -/
def applyUpdate (u : URL) (upd : URLUpdate) : URL :=
  let u := match upd.title with | some v => { u with title := v } | none => u
  let u := match upd.description with | some v => { u with description := v } | none => u
  let u := match upd.is_active with | some v => { u with is_active := v } | none => u
  let u := match upd.expires_at with | some v => { u with expires_at := v } | none => u
  let u := match upd.max_clicks with | some v => { u with max_clicks := v } | none => u
  u

/-- `update_url(db, url_id, url_update)`: apply the provided fields and
commit.  The `onupdate` refresh of `updated_at` fires exactly when the
flushed row has a net change (SQLAlchemy emits no UPDATE for a clean
row, so a no-op update leaves `updated_at` alone). -/
def update_url (db : List URL) (url_id : Nat) (upd : URLUpdate) (now : Int) :
    Option URL × List URL :=
  match get_url_by_id db url_id with
  | none => (none, db)
  | some url =>
      let url2 := applyUpdate url upd
      let url3 := if url2 = url then url2 else { url2 with updated_at := ⟨now, true⟩ }
      (some url3, db.map fun r => if r.id = url_id then url3 else r)

/-- The column changes of a soft delete on the found row; `updated_at`
refreshes only when the row nets a change (i.e. it was active). -/
def softDeleteRec (u : URL) (now : Int) : URL :=
  if u.is_active then { u with is_active := false, updated_at := ⟨now, true⟩ } else u

/-- `delete_url(db, url_id, soft_delete)`: `False` when the id does not
resolve; soft mode flips `is_active` off, hard mode removes the row. -/
def delete_url (db : List URL) (url_id : Nat) (softDelete : Bool) (now : Int) :
    Bool × List URL :=
  match get_url_by_id db url_id with
  | none => (false, db)
  | some _ =>
      if softDelete then
        (true, db.map fun r => if r.id = url_id then softDeleteRec r now else r)
      else
        (true, db.filter fun r => !(r.id == url_id))

/-! ## api/url_endpoints.py: the redirect endpoint -/

/-- The outcomes of `redirect_to_url`, one per exit point (HTTP 404, the
three 410 reasons, the two 401 reasons, and the 307 redirect). -/
inductive RedirectOutcome where
  | notFound
  | goneDeactivated
  | goneExpired
  | goneMaxClicks
  | unauthorizedNoPassword
  | unauthorizedWrong
  | redirected (location : String)
deriving DecidableEq

def RedirectOutcome.isUnauthorized : RedirectOutcome → Bool
  | unauthorizedNoPassword => true
  | unauthorizedWrong => true
  | _ => false

/-- The tail of the endpoint after the accessibility gate: password
check, click accounting, redirect. -/
def redirectAfterGate (checkpw : String → String → Bool) (db : List URL) (url : URL)
    (password : Option String) (now : Int) : RedirectOutcome × List URL :=
  if optStrTruthy url.password_hash then
    if !(optStrTruthy password) then (RedirectOutcome.unauthorizedNoPassword, db)
    else if !(verify_password checkpw url (password.getD "")) then
      (RedirectOutcome.unauthorizedWrong, db)
    else
      (RedirectOutcome.redirected url.long_url, increment_click_count db url now)
  else
    (RedirectOutcome.redirected url.long_url, increment_click_count db url now)

/-- `redirect_to_url(code, password, db)`: 404 on an unknown code, then
the three-reason accessibility gate (falling through, like the python,
if none of the reasons holds), then the password gate, then the click
increment and the 307 redirect. -/
def redirect_to_url (checkpw : String → String → Bool) (db : List URL) (code : String)
    (password : Option String) (now : Int) : RedirectOutcome × List URL :=
  match get_url_by_code db code with
  | none => (RedirectOutcome.notFound, db)
  | some url =>
      if !(url.is_accessible now) then
        if !url.is_active then (RedirectOutcome.goneDeactivated, db)
        else if url.is_expired now then (RedirectOutcome.goneExpired, db)
        else if url.has_reached_max_clicks then (RedirectOutcome.goneMaxClicks, db)
        else redirectAfterGate checkpw db url password now
      else redirectAfterGate checkpw db url password now

/-! ## Helper definitions for concrete scenarios -/

/-- A plain active row with no optional features, used to build concrete
scenarios. -/
def sampleRow : URL :=
  { id := 1
    long_url := "https://example.com/a"
    short_code := "M7wqNy"
    custom_alias := none
    title := none
    description := none
    user_id := none
    creator_ip := none
    is_active := true
    click_count := 0
    created_at := ⟨0, true⟩
    updated_at := ⟨0, true⟩
    last_accessed_at := none
    expires_at := none
    password_hash := none
    max_clicks := none }

/-- The `PATCH` body with no fields set (`model_dump(exclude_unset=True)`
gives the empty dict). -/
def emptyUpdate : URLUpdate :=
  { title := none, description := none, is_active := none
    expires_at := none, max_clicks := none }

/-- The combined identifier namespace of a table: every `short_code`
together with every present `custom_alias`. -/
def combinedCodes (rows : List URL) : List String :=
  rows.flatMap fun r => r.short_code :: r.custom_alias.toList

/-- Whether a `create_short_url` call succeeded (did not raise). -/
def exceptOk : Except CreateError URL → Bool
  | Except.ok _ => true
  | Except.error _ => false

/-! ## Views of the single-value encoding (proof abbreviations)

These name the intermediate values `_encode` computes for a one-element
value list (`values_hash = v % 100`, the lottery character, the reordered
alphabet of the single loop iteration, and the digit block); they are
abbreviations for proving facts about `encodeCore [v]`, not extra
source behaviour. -/

def singleLottery (v : Nat) : Char := ALPHABET.getD ((v % 100) % ALPHABET.length) ' '

def singleAlpha (v : Nat) : List Char :=
  reorder ALPHABET ((singleLottery v :: SALT ++ ALPHABET).take ALPHABET.length)

def singleDigits (v : Nat) : List Char := hashDigits (singleAlpha v) v

/-- The first guard `_ensure_length` prepends for the single-value
encoding. -/
def singleG1 (v : Nat) : Char :=
  GUARDS.getD ((v % 100 + (singleLottery v).toNat) % GUARDS.length) ' '

/-- The second guard `_ensure_length` appends when still short. -/
def singleG2 (v : Nat) : Char :=
  GUARDS.getD
    ((v % 100 + ((singleG1 v :: singleLottery v :: singleDigits v).getD 2 ' ').toNat)
      % GUARDS.length) ' '

/-- The self-shuffled alphabet of the one padding-loop iteration. -/
def singleAlpha2 (v : Nat) : List Char := reorder (singleAlpha v) (singleAlpha v)

/-- The separator `_encode` computes after the single value (and then
cuts off again); the `+ 0` keeps the loop index `i = 0` visible exactly
as the embedding computes it. -/
def singleSep (v : Nat) : Char :=
  SEPARATORS.getD ((v % (((singleDigits v).headD ' ').toNat + 0)) % SEPARATORS.length) ' '


/-! ## Generic list lemmas -/

theorem count_set_balance {α : Type} [DecidableEq α] (l : List α) (i : Nat) (a b x : α)
    (h : l[i]? = some a) :
    (l.set i b).count x + (if a = x then 1 else 0)
      = l.count x + (if b = x then 1 else 0) := by
  induction l generalizing i with
  | nil => simp at h
  | cons hd t ih =>
    cases i with
    | zero =>
      simp only [List.getElem?_cons_zero, Option.some.injEq] at h
      subst h
      simp only [List.set_cons_zero, List.count_cons, beq_iff_eq]
      omega
    | succ i =>
      simp only [List.getElem?_cons_succ] at h
      have ht := ih i h
      simp only [List.set_cons_succ, List.count_cons, beq_iff_eq]
      omega

theorem listSwap_perm (l : List Char) (i j : Nat) : List.Perm (listSwap l i j) l := by
  unfold listSwap
  split
  case _ =>
    rename_i a b hi hj
    rw [List.perm_iff_count]
    intro x
    have h1 := count_set_balance l i a b x hi
    have hj2 : (l.set i b)[j]? = some b := by
      by_cases hij : i = j
      · subst hij
        obtain ⟨hilt, _⟩ := List.getElem?_eq_some_iff.mp hi
        exact List.getElem?_set_self hilt
      · rw [List.getElem?_set_ne hij]; exact hj
    have h2 := count_set_balance (l.set i b) j b a x hj2
    omega
  case _ => exact List.Perm.refl _

theorem reorderAux_perm (salt : List Char) :
    ∀ (i : Nat) (s : List Char) (index isum : Nat), List.Perm (reorderAux salt i s index isum) s
  | 0, s, _, _ => List.Perm.refl s
  | i + 1, s, index, isum => by
      unfold reorderAux
      exact (reorderAux_perm salt i _ _ _).trans (listSwap_perm ..)

theorem reorder_perm (s salt : List Char) : List.Perm (reorder s salt) s := by
  unfold reorder
  split
  · exact List.Perm.refl s
  · exact reorderAux_perm ..

theorem getD_mem {l : List Char} {k : Nat} (h : k < l.length) (d : Char) :
    l.getD k d ∈ l := by
  rw [List.getD_eq_getElem?_getD, List.getElem?_eq_getElem h]
  exact List.getElem_mem h

/-! ## The base-conversion round trip (`_hash` / `_unhash`) -/

theorem hashDigitsAux_fuel (alpha : List Char) :
    ∀ (n f1 f2 : Nat), n < f1 → n < f2 →
      hashDigitsAux alpha f1 n = hashDigitsAux alpha f2 n := by
  intro n
  induction n using Nat.strong_induction_on with
  | _ n ih =>
    intro f1 f2 h1 h2
    cases f1 with
    | zero => omega
    | succ f1 =>
      cases f2 with
      | zero => omega
      | succ f2 =>
        simp only [hashDigitsAux]
        split
        · rfl
        · rename_i h
          push_neg at h
          have hlt : n / alpha.length < n :=
            Nat.div_lt_self (Nat.pos_of_ne_zero fun hn => h.1 (by simp [hn])) h.2
          rw [ih _ hlt f1 f2 (by omega) (by omega)]

/-- The defining recurrence of `_hash` (python's do-while), recovered
from the fuelled implementation. -/
theorem hashDigits_eq (alpha : List Char) (n : Nat) :
    hashDigits alpha n
      = if n / alpha.length = 0 ∨ alpha.length ≤ 1 then
          [alpha.getD (n % alpha.length) ' ']
        else
          hashDigits alpha (n / alpha.length) ++ [alpha.getD (n % alpha.length) ' '] := by
  show hashDigitsAux alpha (n + 1) n = _
  rw [hashDigitsAux]
  split
  · rfl
  · rename_i h
    push_neg at h
    have hlt : n / alpha.length < n :=
      Nat.div_lt_self (Nat.pos_of_ne_zero fun hn => h.1 (by simp [hn])) h.2
    rw [hashDigitsAux_fuel alpha (n / alpha.length) n (n / alpha.length + 1) hlt (by omega)]
    rfl

theorem hashDigits_ne_nil (alpha : List Char) (n : Nat) : hashDigits alpha n ≠ [] := by
  rw [hashDigits_eq]
  split
  · simp
  · simp

theorem hashDigits_mem (alpha : List Char) (hpos : 0 < alpha.length) (n : Nat) :
    ∀ c ∈ hashDigits alpha n, c ∈ alpha := by
  induction n using Nat.strong_induction_on with
  | _ n ih =>
    rw [hashDigits_eq]
    split
    · intro c hc
      simp only [List.mem_singleton] at hc
      subst hc
      exact getD_mem (Nat.mod_lt _ hpos) ' '
    · rename_i h
      push_neg at h
      intro c hc
      rcases List.mem_append.mp hc with h1 | h1
      · exact ih _ (Nat.div_lt_self (Nat.pos_of_ne_zero fun hn => h.1 (by simp [hn])) h.2) c h1
      · simp only [List.mem_singleton] at h1
        subst h1
        exact getD_mem (Nat.mod_lt _ hpos) ' '

theorem idxOfOpt_getElem (l : List Char) (hnd : l.Nodup) (i : Nat) (h : i < l.length) :
    idxOfOpt l l[i] = some i := by
  induction l generalizing i with
  | nil => simp at h
  | cons a t ih =>
    cases i with
    | zero => simp [idxOfOpt]
    | succ i =>
      have hi : i < t.length := by simpa using h
      have hne : a ≠ t[i] := by
        intro hcontra
        exact (List.nodup_cons.mp hnd).1 (hcontra ▸ List.getElem_mem hi)
      simp only [List.getElem_cons_succ, idxOfOpt, if_neg hne]
      rw [ih (List.nodup_cons.mp hnd).2 i hi]
      rfl

theorem unhashOpt_append (alpha : List Char) (xs ys : List Char) (acc : Nat) :
    unhashOpt alpha (xs ++ ys) acc
      = match unhashOpt alpha xs acc with
        | none => none
        | some m => unhashOpt alpha ys m := by
  induction xs generalizing acc with
  | nil => rfl
  | cons c rest ih =>
    simp only [List.cons_append, unhashOpt]
    cases idxOfOpt alpha c with
    | none => rfl
    | some p => exact ih _

theorem unhash_hashDigits (alpha : List Char) (h2 : 2 ≤ alpha.length) (hnd : alpha.Nodup)
    (n acc : Nat) :
    unhashOpt alpha (hashDigits alpha n) acc
      = some (acc * alpha.length ^ (hashDigits alpha n).length + n) := by
  induction n using Nat.strong_induction_on generalizing acc with
  | _ n ih =>
    rw [hashDigits_eq]
    split
    · rename_i h
      have hL : ¬ alpha.length ≤ 1 := by omega
      have hn : n < alpha.length := by
        rcases h with h | h
        · exact (Nat.div_eq_zero_iff (by omega)).mp h
        · omega
      have hmod : n % alpha.length = n := Nat.mod_eq_of_lt hn
      have hg : alpha.getD (n % alpha.length) ' ' = alpha[n] := by
        rw [hmod, List.getD_eq_getElem?_getD, List.getElem?_eq_getElem hn]
        rfl
      simp only [hg, unhashOpt, idxOfOpt_getElem alpha hnd n hn]
      simp [pow_one]
    · rename_i h
      push_neg at h
      have hlt : n / alpha.length < n :=
        Nat.div_lt_self (Nat.pos_of_ne_zero fun hn => h.1 (by simp [hn])) h.2
      rw [unhashOpt_append, ih _ hlt acc]
      have hmodlt : n % alpha.length < alpha.length := Nat.mod_lt _ (by omega)
      have hg : alpha.getD (n % alpha.length) ' ' = alpha[n % alpha.length] := by
        rw [List.getD_eq_getElem?_getD, List.getElem?_eq_getElem hmodlt]
        rfl
      simp only [hg, unhashOpt, idxOfOpt_getElem alpha hnd _ hmodlt]
      congr 1
      rw [List.length_append, List.length_singleton, pow_succ]
      have := Nat.div_add_mod n alpha.length
      ring_nf
      nlinarith [this]

/-! ## `_split` lemmas -/

theorem splitOn_sepFree (seps : List Char) (xs : List Char) (h : ∀ c ∈ xs, c ∉ seps) :
    splitOn seps xs = [xs] := by
  induction xs with
  | nil => rfl
  | cons c rest ih =>
    have hc : c ∉ seps := h c (List.mem_cons_self ..)
    simp only [splitOn, if_neg hc, ih fun d hd => h d (List.mem_cons_of_mem _ hd)]

theorem splitOn_append_sep (seps : List Char) (xs ys : List Char) (g : Char)
    (h : ∀ c ∈ xs, c ∉ seps) (hg : g ∈ seps) :
    splitOn seps (xs ++ g :: ys) = xs :: splitOn seps ys := by
  induction xs with
  | nil => simp [splitOn, if_pos hg]
  | cons c rest ih =>
    have hc : c ∉ seps := h c (List.mem_cons_self ..)
    have hrest := ih fun d hd => h d (List.mem_cons_of_mem _ hd)
    show splitOn seps (c :: (rest ++ g :: ys)) = _
    simp only [splitOn, if_neg hc, hrest]

/-! ## Concrete facts about the configured alphabet, separators, guards -/

theorem ALPHABET_length : ALPHABET.length = 44 := by decide

theorem ALPHABET_nodup : ALPHABET.Nodup := by decide

theorem GUARDS_length : GUARDS.length = 4 := by decide

theorem SEPARATORS_length : SEPARATORS.length = 14 := by decide

theorem alphabet_guard_disjoint : ∀ c ∈ ALPHABET, c ∉ GUARDS := by decide

theorem alphabet_sep_disjoint : ∀ c ∈ ALPHABET, c ∉ SEPARATORS := by decide

/-! ## Decoding the shapes `_ensure_length` can produce -/

theorem decodeCore_bare (lottery : Char) (rest : List Char)
    (h : ∀ c ∈ lottery :: rest, c ∉ GUARDS) :
    decodeCore (lottery :: rest)
      = decodeLoop SALT lottery (splitOn SEPARATORS rest) ALPHABET := by
  unfold decodeCore
  rw [splitOn_sepFree GUARDS _ h]
  simp

theorem decodeCore_one_guard (g lottery : Char) (rest : List Char)
    (hg : g ∈ GUARDS) (h : ∀ c ∈ lottery :: rest, c ∉ GUARDS) :
    decodeCore (g :: lottery :: rest)
      = decodeLoop SALT lottery (splitOn SEPARATORS rest) ALPHABET := by
  unfold decodeCore
  have hsplit : splitOn GUARDS (g :: lottery :: rest) = [[], lottery :: rest] := by
    have h0 := splitOn_append_sep GUARDS [] (lottery :: rest) g (by simp) hg
    rw [List.nil_append] at h0
    rw [h0, splitOn_sepFree GUARDS _ h]
  rw [hsplit]
  simp

theorem decodeCore_two_guards (pre suf : List Char) (g g2 lottery : Char) (rest : List Char)
    (hg : g ∈ GUARDS) (hg2 : g2 ∈ GUARDS)
    (hpre : ∀ c ∈ pre, c ∉ GUARDS) (hsuf : ∀ c ∈ suf, c ∉ GUARDS)
    (h : ∀ c ∈ lottery :: rest, c ∉ GUARDS) :
    decodeCore (pre ++ g :: lottery :: (rest ++ g2 :: suf))
      = decodeLoop SALT lottery (splitOn SEPARATORS rest) ALPHABET := by
  unfold decodeCore
  have hsplit : splitOn GUARDS (pre ++ g :: lottery :: (rest ++ g2 :: suf))
      = [pre, lottery :: rest, suf] := by
    rw [splitOn_append_sep GUARDS pre _ g hpre hg, ← List.cons_append lottery rest (g2 :: suf),
      splitOn_append_sep GUARDS (lottery :: rest) suf g2 h hg2,
      splitOn_sepFree GUARDS suf hsuf]
  rw [hsplit]
  simp

theorem decodeCore_two_guards_nopre (suf : List Char) (g g2 lottery : Char) (rest : List Char)
    (hg : g ∈ GUARDS) (hg2 : g2 ∈ GUARDS)
    (hsuf : ∀ c ∈ suf, c ∉ GUARDS)
    (h : ∀ c ∈ lottery :: rest, c ∉ GUARDS) :
    decodeCore (g :: lottery :: (rest ++ g2 :: suf))
      = decodeLoop SALT lottery (splitOn SEPARATORS rest) ALPHABET := by
  have h0 := decodeCore_two_guards [] suf g g2 lottery rest hg hg2 (by simp) hsuf h
  rw [List.nil_append] at h0
  exact h0

/-- The single-value decode loop applied to the digit block recovers the
value. -/
theorem decodeLoop_single (v : Nat) :
    decodeLoop SALT (singleLottery v) (splitOn SEPARATORS (singleDigits v)) ALPHABET
      = some [v] := by
  have hperm : List.Perm (singleAlpha v) ALPHABET := reorder_perm ..
  have hlen : (singleAlpha v).length = 44 := by rw [hperm.length_eq, ALPHABET_length]
  have hnd : (singleAlpha v).Nodup := hperm.nodup_iff.mpr ALPHABET_nodup
  have hdig : ∀ c ∈ singleDigits v, c ∉ SEPARATORS := by
    intro c hc
    exact alphabet_sep_disjoint c
      (hperm.mem_iff.mp (hashDigits_mem _ (by omega) v c hc))
  rw [splitOn_sepFree _ _ hdig]
  have halpha : reorder ALPHABET ((singleLottery v :: SALT ++ ALPHABET).take ALPHABET.length)
      = singleAlpha v := rfl
  simp only [decodeLoop, halpha, singleDigits,
    unhash_hashDigits (singleAlpha v) (by omega) hnd v 0]
  simp

/-! ## Evaluating the padding loop -/

theorem padLoop_stop (f : Nat) (alpha e : List Char) (sp : Nat)
    (h : ¬ e.length < HASHIDS_MIN_LENGTH) : padLoop (f + 1) alpha e sp = e := by
  rw [padLoop, if_neg h]

theorem slice49 (A e : List Char) (hA : A.length = 44) (he : e.length = 5) :
    ((A.drop 22 ++ e ++ A.take 22).drop 21).take 6 = A.drop 43 ++ e := by
  rw [List.append_assoc,
    List.drop_append_of_le_length (by rw [List.length_drop, hA]; omega),
    List.drop_drop, show (22 + 21 : Nat) = 43 from rfl,
    List.take_append_eq_append_take,
    List.take_of_length_le (by rw [List.length_drop, hA]; omega),
    List.length_drop, hA, show (6 - (44 - 43) : Nat) = 5 from rfl,
    List.take_append_of_le_length (by omega),
    List.take_of_length_le (by omega)]

theorem slice48 (A e : List Char) (hA : A.length = 44) (he : e.length = 4) :
    ((A.drop 22 ++ e ++ A.take 22).drop 21).take 6 = A.drop 43 ++ (e ++ A.take 1) := by
  rw [List.append_assoc,
    List.drop_append_of_le_length (by rw [List.length_drop, hA]; omega),
    List.drop_drop, show (22 + 21 : Nat) = 43 from rfl,
    List.take_append_eq_append_take,
    List.take_of_length_le (by rw [List.length_drop, hA]; omega),
    List.length_drop, hA, show (6 - (44 - 43) : Nat) = 5 from rfl,
    List.take_append_eq_append_take,
    List.take_of_length_le (by omega), he, show (5 - 4 : Nat) = 1 from rfl,
    List.take_take, show min 1 22 = 1 from rfl]

theorem padLoop_once5 (f : Nat) (alpha e : List Char) (halpha : alpha.length = 44)
    (he : e.length = 5) :
    padLoop (f + 2) alpha e 22 = (reorder alpha alpha).drop 43 ++ e := by
  have hA2 : (reorder alpha alpha).length = 44 := by
    rw [(reorder_perm alpha alpha).length_eq, halpha]
  have hX : ((reorder alpha alpha).drop 22 ++ e ++ (reorder alpha alpha).take 22).length = 49 := by
    simp [List.length_append, List.length_drop, List.length_take, hA2, he]
  rw [padLoop, if_pos (by rw [he]; decide)]
  show padLoop (f + 1) (reorder alpha alpha)
      (if HASHIDS_MIN_LENGTH
            < ((reorder alpha alpha).drop 22 ++ e ++ (reorder alpha alpha).take 22).length
       then
        ((((reorder alpha alpha).drop 22 ++ e ++ (reorder alpha alpha).take 22).drop
              ((((reorder alpha alpha).drop 22 ++ e ++ (reorder alpha alpha).take 22).length
                  - HASHIDS_MIN_LENGTH) / 2)).take HASHIDS_MIN_LENGTH)
       else (reorder alpha alpha).drop 22 ++ e ++ (reorder alpha alpha).take 22) 22
    = (reorder alpha alpha).drop 43 ++ e
  rw [if_pos (by rw [hX]; decide), hX,
    show ((49 - HASHIDS_MIN_LENGTH) / 2 : Nat) = 21 from rfl,
    show HASHIDS_MIN_LENGTH = 6 from rfl,
    slice49 _ _ hA2 he]
  exact padLoop_stop f _ _ _ (by simp [List.length_append, List.length_drop, hA2, he]; decide)

theorem padLoop_once4 (f : Nat) (alpha e : List Char) (halpha : alpha.length = 44)
    (he : e.length = 4) :
    padLoop (f + 2) alpha e 22
      = (reorder alpha alpha).drop 43 ++ (e ++ (reorder alpha alpha).take 1) := by
  have hA2 : (reorder alpha alpha).length = 44 := by
    rw [(reorder_perm alpha alpha).length_eq, halpha]
  have hX : ((reorder alpha alpha).drop 22 ++ e ++ (reorder alpha alpha).take 22).length = 48 := by
    simp [List.length_append, List.length_drop, List.length_take, hA2, he]
  rw [padLoop, if_pos (by rw [he]; decide)]
  show padLoop (f + 1) (reorder alpha alpha)
      (if HASHIDS_MIN_LENGTH
            < ((reorder alpha alpha).drop 22 ++ e ++ (reorder alpha alpha).take 22).length
       then
        ((((reorder alpha alpha).drop 22 ++ e ++ (reorder alpha alpha).take 22).drop
              ((((reorder alpha alpha).drop 22 ++ e ++ (reorder alpha alpha).take 22).length
                  - HASHIDS_MIN_LENGTH) / 2)).take HASHIDS_MIN_LENGTH)
       else (reorder alpha alpha).drop 22 ++ e ++ (reorder alpha alpha).take 22) 22
    = (reorder alpha alpha).drop 43 ++ (e ++ (reorder alpha alpha).take 1)
  rw [if_pos (by rw [hX]; decide), hX,
    show ((48 - HASHIDS_MIN_LENGTH) / 2 : Nat) = 21 from rfl,
    show HASHIDS_MIN_LENGTH = 6 from rfl,
    slice48 _ _ hA2 he]
  refine padLoop_stop f _ _ _ ?_
  simp [List.length_append, List.length_drop, List.length_take, hA2, he]
  decide

/-! ## Facts about the single-value view -/

theorem singleAlpha_perm (v : Nat) : List.Perm (singleAlpha v) ALPHABET := reorder_perm ..

theorem singleAlpha_length (v : Nat) : (singleAlpha v).length = 44 := by
  rw [(singleAlpha_perm v).length_eq, ALPHABET_length]

theorem singleAlpha2_perm (v : Nat) : List.Perm (singleAlpha2 v) ALPHABET :=
  (reorder_perm ..).trans (singleAlpha_perm v)

theorem singleLottery_mem (v : Nat) : singleLottery v ∈ ALPHABET :=
  getD_mem (Nat.mod_lt _ (by rw [ALPHABET_length]; omega)) ' '

theorem singleDigits_subset (v : Nat) : ∀ c ∈ singleDigits v, c ∈ ALPHABET := fun c hc =>
  (singleAlpha_perm v).mem_iff.mp
    (hashDigits_mem _ (by rw [singleAlpha_length]; omega) v c hc)

theorem singleCore_guard_free (v : Nat) :
    ∀ c ∈ singleLottery v :: singleDigits v, c ∉ GUARDS := by
  intro c hc
  rcases List.mem_cons.mp hc with rfl | hc
  · exact alphabet_guard_disjoint _ (singleLottery_mem v)
  · exact alphabet_guard_disjoint _ (singleDigits_subset v _ hc)

theorem singleG1_mem (v : Nat) : singleG1 v ∈ GUARDS :=
  getD_mem (Nat.mod_lt _ (by rw [GUARDS_length]; omega)) ' '

theorem singleG2_mem (v : Nat) : singleG2 v ∈ GUARDS :=
  getD_mem (Nat.mod_lt _ (by rw [GUARDS_length]; omega)) ' '

theorem singleAlpha2_guard_free (v : Nat) : ∀ c ∈ singleAlpha2 v, c ∉ GUARDS := fun c hc =>
  alphabet_guard_disjoint _ ((singleAlpha2_perm v).mem_iff.mp hc)

theorem singleDigits_len_pos (v : Nat) : 1 ≤ (singleDigits v).length :=
  List.length_pos.mpr (hashDigits_ne_nil (singleAlpha v) v)

/-! ## The shapes `_ensure_length` produces for a short single-value code -/

theorem ensureLength_single (v : Nat) :
    ensureLength (singleLottery v :: singleDigits v) (singleAlpha v) (v % 100)
      = padLoop (HASHIDS_MIN_LENGTH + 1) (singleAlpha v)
          (if (singleG1 v :: singleLottery v :: singleDigits v).length < HASHIDS_MIN_LENGTH
           then (singleG1 v :: singleLottery v :: singleDigits v) ++ [singleG2 v]
           else singleG1 v :: singleLottery v :: singleDigits v)
          ((singleAlpha v).length / 2) := rfl

theorem ensure_k4 (v : Nat) (hk : (singleDigits v).length = 4) :
    ensureLength (singleLottery v :: singleDigits v) (singleAlpha v) (v % 100)
      = singleG1 v :: singleLottery v :: singleDigits v := by
  rw [ensureLength_single,
    if_neg (by simp [List.length_cons, hk, HASHIDS_MIN_LENGTH])]
  exact padLoop_stop HASHIDS_MIN_LENGTH _ _ _
    (by simp [List.length_cons, hk, HASHIDS_MIN_LENGTH])

theorem ensure_k3 (v : Nat) (hk : (singleDigits v).length = 3) :
    ensureLength (singleLottery v :: singleDigits v) (singleAlpha v) (v % 100)
      = (singleG1 v :: singleLottery v :: singleDigits v) ++ [singleG2 v] := by
  rw [ensureLength_single,
    if_pos (by simp [List.length_cons, hk, HASHIDS_MIN_LENGTH])]
  exact padLoop_stop HASHIDS_MIN_LENGTH _ _ _
    (by simp [List.length_cons, List.length_append, hk, HASHIDS_MIN_LENGTH])

theorem ensure_k2 (v : Nat) (hk : (singleDigits v).length = 2) :
    ensureLength (singleLottery v :: singleDigits v) (singleAlpha v) (v % 100)
      = (singleAlpha2 v).drop 43
          ++ ((singleG1 v :: singleLottery v :: singleDigits v) ++ [singleG2 v]) := by
  rw [ensureLength_single,
    if_pos (by simp [List.length_cons, hk, HASHIDS_MIN_LENGTH]),
    singleAlpha_length,
    show (44 / 2 : Nat) = 22 from rfl,
    show (HASHIDS_MIN_LENGTH + 1 : Nat) = 5 + 2 from rfl,
    padLoop_once5 5 _ _ (singleAlpha_length v)
      (by simp [List.length_cons, List.length_append, hk])]
  rfl

theorem ensure_k1 (v : Nat) (hk : (singleDigits v).length = 1) :
    ensureLength (singleLottery v :: singleDigits v) (singleAlpha v) (v % 100)
      = (singleAlpha2 v).drop 43
          ++ (((singleG1 v :: singleLottery v :: singleDigits v) ++ [singleG2 v])
              ++ (singleAlpha2 v).take 1) := by
  rw [ensureLength_single,
    if_pos (by simp [List.length_cons, hk, HASHIDS_MIN_LENGTH]),
    singleAlpha_length,
    show (44 / 2 : Nat) = 22 from rfl,
    show (HASHIDS_MIN_LENGTH + 1 : Nat) = 5 + 2 from rfl,
    padLoop_once4 5 _ _ (singleAlpha_length v)
      (by simp [List.length_cons, List.length_append, hk])]
  rfl

/-! ## Decoding a freshly encoded single value -/

theorem decodeCore_ensure_k4 (v : Nat) (hk : (singleDigits v).length = 4) :
    decodeCore (ensureLength (singleLottery v :: singleDigits v) (singleAlpha v) (v % 100))
      = some [v] := by
  rw [ensure_k4 v hk,
    decodeCore_one_guard _ _ _ (singleG1_mem v) (singleCore_guard_free v)]
  exact decodeLoop_single v

theorem decodeCore_ensure_k3 (v : Nat) (hk : (singleDigits v).length = 3) :
    decodeCore (ensureLength (singleLottery v :: singleDigits v) (singleAlpha v) (v % 100))
      = some [v] := by
  rw [ensure_k3 v hk]
  simp only [List.cons_append]
  rw [decodeCore_two_guards_nopre [] _ _ _ _ (singleG1_mem v) (singleG2_mem v) (by simp)
    (singleCore_guard_free v)]
  exact decodeLoop_single v

theorem decodeCore_ensure_k2 (v : Nat) (hk : (singleDigits v).length = 2) :
    decodeCore (ensureLength (singleLottery v :: singleDigits v) (singleAlpha v) (v % 100))
      = some [v] := by
  have hpre1 : ∀ c ∈ (singleAlpha2 v).drop 43, c ∉ GUARDS := fun c hc =>
    singleAlpha2_guard_free v c (List.drop_subset _ _ hc)
  rw [ensure_k2 v hk]
  simp only [List.cons_append]
  rw [decodeCore_two_guards _ [] _ _ _ _ (singleG1_mem v) (singleG2_mem v) hpre1 (by simp)
    (singleCore_guard_free v)]
  exact decodeLoop_single v

theorem decodeCore_ensure_k1 (v : Nat) (hk : (singleDigits v).length = 1) :
    decodeCore (ensureLength (singleLottery v :: singleDigits v) (singleAlpha v) (v % 100))
      = some [v] := by
  have hpre1 : ∀ c ∈ (singleAlpha2 v).drop 43, c ∉ GUARDS := fun c hc =>
    singleAlpha2_guard_free v c (List.drop_subset _ _ hc)
  have hsuf1 : ∀ c ∈ (singleAlpha2 v).take 1, c ∉ GUARDS := fun c hc =>
    singleAlpha2_guard_free v c (List.take_subset _ _ hc)
  rw [ensure_k1 v hk]
  simp only [List.cons_append, List.append_assoc, List.singleton_append, List.nil_append]
  rw [decodeCore_two_guards _ _ _ _ _ _ (singleG1_mem v) (singleG2_mem v) hpre1 hsuf1
    (singleCore_guard_free v)]
  exact decodeLoop_single v

theorem decodeCore_ensure (v : Nat)
    (hlen : (singleLottery v :: singleDigits v).length < HASHIDS_MIN_LENGTH) :
    decodeCore (ensureLength (singleLottery v :: singleDigits v) (singleAlpha v) (v % 100))
      = some [v] := by
  have hk4 : (singleDigits v).length ≤ 4 := by
    simp only [List.length_cons, HASHIDS_MIN_LENGTH] at hlen
    omega
  have hk1 := singleDigits_len_pos v
  rcases (by omega :
      (singleDigits v).length = 1 ∨ (singleDigits v).length = 2
        ∨ (singleDigits v).length = 3 ∨ (singleDigits v).length = 4) with hk | hk | hk | hk
  · exact decodeCore_ensure_k1 v hk
  · exact decodeCore_ensure_k2 v hk
  · exact decodeCore_ensure_k3 v hk
  · exact decodeCore_ensure_k4 v hk

theorem encodeCore_unfold (v : Nat) :
    encodeCore [v]
      = (if HASHIDS_MIN_LENGTH
            ≤ ((singleLottery v
                :: (encodeLoop SALT (singleLottery v) SEPARATORS [v] 0 ALPHABET).1).dropLast).length
         then (singleLottery v
                :: (encodeLoop SALT (singleLottery v) SEPARATORS [v] 0 ALPHABET).1).dropLast
         else
           ensureLength
             ((singleLottery v
                :: (encodeLoop SALT (singleLottery v) SEPARATORS [v] 0 ALPHABET).1).dropLast)
             (encodeLoop SALT (singleLottery v) SEPARATORS [v] 0 ALPHABET).2
             (v % 100)) := rfl

theorem encodeLoop_single_fst (v : Nat) :
    (encodeLoop SALT (singleLottery v) SEPARATORS [v] 0 ALPHABET).1
      = singleDigits v ++ [singleSep v] := rfl

theorem encodeLoop_snd_generic (salt : List Char) (lottery : Char) (seps : List Char)
    (v i : Nat) (alpha : List Char) :
    (encodeLoop salt lottery seps [v] i alpha).2
      = reorder alpha ((lottery :: salt ++ alpha).take alpha.length) := rfl

theorem encodeLoop_single_snd (v : Nat) :
    (encodeLoop SALT (singleLottery v) SEPARATORS [v] 0 ALPHABET).2 = singleAlpha v :=
  encodeLoop_snd_generic SALT (singleLottery v) SEPARATORS v 0 ALPHABET

theorem encodeCore_single (v : Nat) :
    encodeCore [v]
      = if HASHIDS_MIN_LENGTH ≤ (singleLottery v :: singleDigits v).length
        then singleLottery v :: singleDigits v
        else ensureLength (singleLottery v :: singleDigits v) (singleAlpha v) (v % 100) := by
  rw [encodeCore_unfold v, encodeLoop_single_fst v, encodeLoop_single_snd v,
    ← List.cons_append, List.dropLast_concat]

theorem decodeCore_encodeSingle (v : Nat) : decodeCore (hashidsEncode [v]) = some [v] := by
  rw [hashidsEncode, if_neg (by simp : ¬([v] = ([] : List Nat))), encodeCore_single v]
  rcases Nat.lt_or_ge (singleLottery v :: singleDigits v).length HASHIDS_MIN_LENGTH
    with hlen | hlen
  · rw [if_neg (by omega)]
    exact decodeCore_ensure v hlen
  · rw [if_pos hlen, decodeCore_bare _ _ (singleCore_guard_free v)]
    exact decodeLoop_single v

theorem hashidsDecode_encodeSingle (v : Nat) :
    hashidsDecode (hashidsEncode [v]) = [v] := by
  have h1 := decodeCore_encodeSingle v
  have hne : hashidsEncode [v] ≠ [] := by
    intro h
    rw [h] at h1
    simp [decodeCore, splitOn] at h1
  rw [hashidsDecode, if_neg hne, h1]
  simp

/-! ## Claim C1 -/

/-- C1: for every positive integer id, decoding the short code generated
for it returns that same id — `decode_short_code (generate_short_code id)
= some id` under the configured salt, minimum length and 62-symbol
alphabet. -/
theorem C1_decode_inverts_generate (url_id : Nat) (hpos : 0 < url_id) :
    decode_short_code (generate_short_code url_id) = some url_id := by
  unfold generate_short_code decode_short_code
  rw [show (String.mk (hashidsEncode [url_id])).toList = hashidsEncode [url_id] from rfl,
    hashidsDecode_encodeSingle url_id]

/-- Witness for C1 at `id = 1`. -/
theorem C1_witness : decode_short_code (generate_short_code 1) = some 1 :=
  C1_decode_inverts_generate 1 (by decide)

/-! ## Claim C8 -/

/-- C8 (amended): `decode_short_code` never raises (it is a total
function into `Option`), and it returns `none` on every string that the
underlying hashids encoder does not produce for any nonempty value
sequence; but a hashid of a longer value sequence — which the single-id
encoder `generate_short_code` never emits — decodes to its first value
rather than to `none`. -/
theorem C8_decode_none_off_range (s : String) :
    decode_short_code s = none
      ∨ ∃ ns : List Nat, ns ≠ [] ∧ hashidsEncode ns = s.toList := by
  by_cases h0 : s.toList = []
  · left
    unfold decode_short_code hashidsDecode
    rw [if_pos h0]
  · cases hdec : decodeCore s.toList with
    | none =>
      left
      have hdec2 : decodeCore s.data = none := hdec
      unfold decode_short_code hashidsDecode
      rw [if_neg h0]
      simp [hdec2]
    | some ns =>
      by_cases henc : hashidsEncode ns = s.toList
      · cases ns with
        | nil =>
          left
          have hdec2 : decodeCore s.data = some [] := hdec
          unfold decode_short_code hashidsDecode
          rw [if_neg h0]
          simp [hdec2]
        | cons n rest => exact Or.inr ⟨n :: rest, by simp, henc⟩
      · left
        have hdec2 : decodeCore s.data = some ns := hdec
        have henc2 : ¬ hashidsEncode ns = s.data := henc
        unfold decode_short_code hashidsDecode
        rw [if_neg h0]
        simp [hdec2, henc2]

/-- C8 counterexample: the hashid of the pair `(1, 2)` is not produced by
`generate_short_code` for any id, yet `decode_short_code` returns
`some 1` on it instead of `none`. -/
theorem C8_counterexample :
    decode_short_code (String.mk (hashidsEncode [1, 2])) = some 1
      ∧ ∀ url_id : Nat,
          generate_short_code url_id ≠ String.mk (hashidsEncode [1, 2]) := by
  constructor
  · decide
  · intro url_id h
    have h1 : hashidsDecode (hashidsEncode [url_id]) = [url_id] :=
      hashidsDecode_encodeSingle url_id
    have h2 : hashidsEncode [url_id] = hashidsEncode [1, 2] := by
      have h3 := congrArg String.toList h
      simpa [generate_short_code] using h3
    rw [h2] at h1
    have h4 : hashidsDecode (hashidsEncode [1, 2]) = [1, 2] := by decide
    rw [h4] at h1
    simp at h1

/-! ## Claim C2 -/

/-- C2: for a record with `expires_at` set that is active and not
click-exhausted, accessibility at `now` is false exactly when `now` is
strictly after the expiry; the boundary `now = expires_at` is still
accessible; and a naive stored timestamp (compared as UTC) behaves
exactly like the aware timestamp with the same UTC value. -/
theorem C2_expiry_boundary (u : URL) (now : Int) (e : PyDateTime)
    (he : u.expires_at = some e) (ha : u.is_active = true)
    (hm : u.has_reached_max_clicks = false) :
    (u.is_accessible now = false ↔ e.utcValue < now)
    ∧ (now = e.utcValue → u.is_accessible now = true)
    ∧ URL.is_expired { u with expires_at := some ⟨e.utcValue, !e.aware⟩ } now
        = u.is_expired now := by
  have haux : ∀ (uu : URL) (x : PyDateTime), uu.expires_at = some x →
      uu.is_expired now = decide (x.utcValue < now) := by
    intro uu x hx
    simp only [URL.is_expired, hx]
    split <;> rfl
  have hexp := haux u e he
  refine ⟨?_, ?_, ?_⟩
  · simp only [URL.is_accessible, ha, hm, hexp]
    simp
  · intro hnow
    subst hnow
    simp only [URL.is_accessible, ha, hm, hexp]
    simp
  · rw [haux { u with expires_at := some ⟨e.utcValue, !e.aware⟩ } ⟨e.utcValue, !e.aware⟩ rfl,
      hexp]

/-- Witness for C2: expiry at instant 10 denies at 11 and admits at the
boundary 10. -/
theorem C2_witness :
    ({ sampleRow with expires_at := some ⟨10, true⟩ } : URL).is_accessible 11 = false
    ∧ ({ sampleRow with expires_at := some ⟨10, true⟩ } : URL).is_accessible 10 = true := by
  constructor
  · exact (C2_expiry_boundary { sampleRow with expires_at := some ⟨10, true⟩ } 11
      ⟨10, true⟩ rfl rfl rfl).1.mpr (by decide)
  · exact (C2_expiry_boundary { sampleRow with expires_at := some ⟨10, true⟩ } 10
      ⟨10, true⟩ rfl rfl rfl).2.1 rfl

/-! ## Claim C3 -/

/-- C3: for a record with `max_clicks` set that is active and not
expired, accessibility is false exactly when `click_count ≥ max_clicks`
(so equality already denies), and an absent `max_clicks` never trips the
click gate. -/
theorem C3_click_cap_boundary :
    (∀ (u : URL) (now : Int) (m : Nat), u.max_clicks = some m → u.is_active = true →
        u.is_expired now = false →
        (u.is_accessible now = false ↔ m ≤ u.click_count))
    ∧ (∀ u : URL, u.max_clicks = none → u.has_reached_max_clicks = false) := by
  constructor
  · intro u now m hm ha he
    simp [URL.is_accessible, URL.has_reached_max_clicks, ha, he, hm]
  · intro u hm
    simp [URL.has_reached_max_clicks, hm]

/-- Witness for C3: a cap of 2 with 2 clicks already denies; an uncapped
row never trips the click gate. -/
theorem C3_witness :
    ({ sampleRow with max_clicks := some 2, click_count := 2 } : URL).is_accessible 0 = false
    ∧ sampleRow.has_reached_max_clicks = false := by
  constructor
  · exact (C3_click_cap_boundary.1 { sampleRow with max_clicks := some 2, click_count := 2 }
      0 2 rfl rfl rfl).mpr (by decide)
  · exact C3_click_cap_boundary.2 sampleRow rfl

/-! ## Claim C7 -/

/-- C7: with no stored password digest, verification passes for every
candidate password and every behaviour of the bcrypt primitive. -/
theorem C7_absent_digest_passes (checkpw : String → String → Bool) (u : URL) (p : String)
    (h : u.password_hash = none) : verify_password checkpw u p = true := by
  simp [verify_password, optStrTruthy, h]

/-- Witness for C7 with an always-rejecting bcrypt stand-in. -/
theorem C7_witness : verify_password (fun _ _ => false) sampleRow "anything" = true :=
  C7_absent_digest_passes (fun _ _ => false) sampleRow "anything" rfl

/-! ## Redirect-path helper lemmas -/

theorem find?_map_pres {α : Type} (p : α → Bool) (f : α → α) (hp : ∀ a, p (f a) = p a) :
    ∀ l : List α, (l.map f).find? p = (l.find? p).map f := by
  intro l
  induction l with
  | nil => rfl
  | cons a t ih =>
    cases hpa : p a with
    | true =>
      rw [List.map_cons, List.find?_cons_of_pos _ (by rw [hp]; exact hpa),
        List.find?_cons_of_pos _ hpa, Option.map_some']
    | false =>
      rw [List.map_cons, List.find?_cons_of_neg _ (by rw [hp, hpa]; simp),
        List.find?_cons_of_neg _ (by simp [hpa]), ih]

theorem matchesCode_recordClick (code : String) (url : URL) (now : Int) (r : URL) :
    matchesCode code (if r.id = url.id then recordClick r now else r) = matchesCode code r := by
  split <;> rfl

theorem get_url_by_code_increment (db : List URL) (code : String) (url : URL) (now : Int)
    (hfind : get_url_by_code db code = some url) :
    get_url_by_code (increment_click_count db url now) code = some (recordClick url now) := by
  unfold get_url_by_code increment_click_count
  rw [find?_map_pres _ _ (matchesCode_recordClick code url now) db]
  unfold get_url_by_code at hfind
  rw [hfind, Option.map_some', if_pos rfl]

/-! ## Claim C5 -/

/-- C5: on an accessible record with a (truthy) stored password digest:
a redirect with no password yields unauthorized and leaves the table
untouched; one with a wrong password yields unauthorized and leaves the
table untouched; one with the correct (necessarily nonempty) password
redirects to the destination, bumps `click_count` by exactly one and
stamps `last_accessed_at`. -/
theorem C5_protected_redirect (checkpw : String → String → Bool) (db : List URL)
    (code : String) (now : Int) (url : URL)
    (hfind : get_url_by_code db code = some url)
    (hacc : url.is_accessible now = true)
    (hhash : optStrTruthy url.password_hash = true) :
    redirect_to_url checkpw db code none now = (RedirectOutcome.unauthorizedNoPassword, db)
    ∧ (∀ p : String, verify_password checkpw url p = false →
        (redirect_to_url checkpw db code (some p) now).1.isUnauthorized = true
        ∧ (redirect_to_url checkpw db code (some p) now).2 = db)
    ∧ (∀ p : String, p ≠ "" → verify_password checkpw url p = true →
        redirect_to_url checkpw db code (some p) now
          = (RedirectOutcome.redirected url.long_url, increment_click_count db url now))
    ∧ (recordClick url now).click_count = url.click_count + 1
    ∧ (recordClick url now).last_accessed_at = some ⟨now, true⟩
    ∧ get_url_by_code (increment_click_count db url now) code
        = some (recordClick url now) := by
  have hgate : ∀ P, redirect_to_url checkpw db code P now
      = redirectAfterGate checkpw db url P now := by
    intro P
    unfold redirect_to_url
    rw [hfind]
    simp [hacc]
  refine ⟨?_, ?_, ?_, rfl, rfl, get_url_by_code_increment db code url now hfind⟩
  · rw [hgate none]
    unfold redirectAfterGate
    rw [hhash]
    simp [optStrTruthy]
  · intro p hv
    by_cases hp : p = ""
    · have hres : redirect_to_url checkpw db code (some p) now
          = (RedirectOutcome.unauthorizedNoPassword, db) := by
        rw [hgate (some p)]
        unfold redirectAfterGate
        rw [hhash]
        subst hp
        simp [optStrTruthy]
      rw [hres]
      exact ⟨rfl, rfl⟩
    · have hres : redirect_to_url checkpw db code (some p) now
          = (RedirectOutcome.unauthorizedWrong, db) := by
        rw [hgate (some p)]
        unfold redirectAfterGate
        rw [hhash]
        simp [optStrTruthy, hp, hv]
      rw [hres]
      exact ⟨rfl, rfl⟩
  · intro p hp hv
    rw [hgate (some p)]
    unfold redirectAfterGate
    rw [hhash]
    simp [optStrTruthy, hp, hv]

/-- Witness for C5 on a one-row table with digest `"pw"` and an
equality-checking bcrypt stand-in. -/
theorem C5_witness :
    redirect_to_url (fun p h => p == h) [{ sampleRow with password_hash := some "pw" }]
        "M7wqNy" none 5
      = (RedirectOutcome.unauthorizedNoPassword,
         [{ sampleRow with password_hash := some "pw" }])
    ∧ redirect_to_url (fun p h => p == h) [{ sampleRow with password_hash := some "pw" }]
        "M7wqNy" (some "pw") 5
      = (RedirectOutcome.redirected "https://example.com/a",
         increment_click_count [{ sampleRow with password_hash := some "pw" }]
           { sampleRow with password_hash := some "pw" } 5) := by
  constructor
  · exact (C5_protected_redirect (fun p h => p == h)
      [{ sampleRow with password_hash := some "pw" }] "M7wqNy" 5
      { sampleRow with password_hash := some "pw" } rfl rfl rfl).1
  · exact (C5_protected_redirect (fun p h => p == h)
      [{ sampleRow with password_hash := some "pw" }] "M7wqNy" 5
      { sampleRow with password_hash := some "pw" } rfl rfl rfl).2.2.1 "pw"
      (by decide) (by decide)

/-! ## Claim C10 -/

/-- C10: on an accessible record with no (truthy) stored digest, a
redirect that supplies any password behaves exactly like one that
supplies none: the password is ignored and the redirect succeeds. -/
theorem C10_password_ignored_when_unprotected (checkpw : String → String → Bool)
    (db : List URL) (code : String) (now : Int) (url : URL) (p : String)
    (hfind : get_url_by_code db code = some url)
    (hacc : url.is_accessible now = true)
    (hhash : optStrTruthy url.password_hash = false) :
    redirect_to_url checkpw db code (some p) now = redirect_to_url checkpw db code none now
    ∧ redirect_to_url checkpw db code (some p) now
        = (RedirectOutcome.redirected url.long_url, increment_click_count db url now) := by
  unfold redirect_to_url
  rw [hfind]
  simp [hacc, redirectAfterGate, hhash]

/-- Witness for C10: a wrong password on an unprotected row still
redirects. -/
theorem C10_witness :
    redirect_to_url (fun _ _ => false) [sampleRow] "M7wqNy" (some "wrong") 5
      = (RedirectOutcome.redirected "https://example.com/a",
         increment_click_count [sampleRow] sampleRow 5) :=
  (C10_password_ignored_when_unprotected (fun _ _ => false) [sampleRow] "M7wqNy" 5
    sampleRow "wrong" rfl rfl rfl).2

/-! ## Claim C4 -/

/-- C4 counterexample: soft-deleting the same existing record twice
reports success (`True`) both times — the second call does not report
"not found", because the soft-deleted row still resolves by id. -/
theorem C4_counterexample :
    (delete_url [sampleRow] 1 true 0).1 = true
    ∧ (delete_url (delete_url [sampleRow] 1 true 0).2 1 true 5).1 = true := by
  decide

theorem softDeleteRec_id (u : URL) (now : Int) : (softDeleteRec u now).id = u.id := by
  unfold softDeleteRec
  split <;> rfl

/-- C4 (amended): delete reports "not found" when the id does not
resolve; after a hard delete any repeated delete reports "not found";
but a second soft delete on an already soft-deleted record reports
success again (the row still resolves), merely leaving it inactive. -/
theorem C4_delete_semantics :
    (∀ (db : List URL) (i : Nat) (soft : Bool) (now : Int),
        (∀ r ∈ db, r.id ≠ i) → delete_url db i soft now = (false, db))
    ∧ (∀ (db : List URL) (i : Nat) (now now2 : Int) (soft2 : Bool),
        delete_url (delete_url db i false now).2 i soft2 now2
          = (false, (delete_url db i false now).2))
    ∧ (∀ (db : List URL) (i : Nat) (now now2 : Int) (url : URL),
        get_url_by_id db i = some url →
        (delete_url db i true now).1 = true
        ∧ (delete_url (delete_url db i true now).2 i true now2).1 = true) := by
  refine ⟨?_, ?_, ?_⟩
  · intro db i soft now h
    unfold delete_url get_url_by_id
    rw [List.find?_eq_none.mpr fun x hx => by simp [h x hx]]
  · intro db i now now2 soft2
    cases hf : get_url_by_id db i with
    | none =>
      unfold delete_url
      rw [hf]
      simp [hf]
    | some url =>
      have hnone : get_url_by_id (db.filter fun r => !(r.id == i)) i = none := by
        unfold get_url_by_id
        rw [List.find?_eq_none]
        intro x hx
        have := (List.mem_filter.mp hx).2
        simp at this
        simp [this]
      unfold delete_url
      rw [hf]
      simp only [if_false, Bool.false_eq_true, ite_false]
      rw [hnone]
  · intro db i now now2 url hfind
    have hmap : get_url_by_id
        (db.map fun r => if r.id = i then softDeleteRec r now else r) i
        = some (if url.id = i then softDeleteRec url now else url) := by
      have hp : ∀ a : URL,
          ((if a.id = i then softDeleteRec a now else a).id == i) = (a.id == i) := by
        intro a
        by_cases hai : a.id = i
        · simp [hai, softDeleteRec_id]
        · simp [hai]
      unfold get_url_by_id
      rw [find?_map_pres _ _ hp db]
      unfold get_url_by_id at hfind
      rw [hfind, Option.map_some']
    constructor
    · unfold delete_url
      rw [hfind]
      rfl
    · unfold delete_url
      rw [hfind]
      simp only [if_true]
      rw [hmap]

/-- Witness for C4 (amended): the unresolved-id case, the repeated hard
delete, and the repeated soft delete, on concrete tables. -/
theorem C4_witness :
    delete_url [] 1 true 0 = (false, [])
    ∧ delete_url (delete_url [sampleRow] 1 false 0).2 1 true 5
        = (false, (delete_url [sampleRow] 1 false 0).2)
    ∧ (delete_url [sampleRow] 1 true 0).1 = true
    ∧ (delete_url (delete_url [sampleRow] 1 true 0).2 1 true 5).1 = true := by
  refine ⟨C4_delete_semantics.1 [] 1 true 0 (by simp), C4_delete_semantics.2.1 [sampleRow] 1 0 5 true, ?_, ?_⟩
  · exact (C4_delete_semantics.2.2 [sampleRow] 1 0 5 sampleRow rfl).1
  · exact (C4_delete_semantics.2.2 [sampleRow] 1 0 5 sampleRow rfl).2

/-! ## Claim C6 -/

/-- C6 (amended, rejection half): creation with a custom alias that any
existing row — soft-deleted or active — already holds as `custom_alias`
or `short_code` fails with the conflict error and persists nothing. -/
theorem C6_alias_conflict (hashpw : String → String) (st : DBState) (data : URLCreate)
    (ip : Option String) (now : Int) (a : String)
    (halias : data.custom_alias = some a)
    (hex : ∃ r ∈ st.rows, r.custom_alias = some a ∨ r.short_code = a) :
    create_short_url hashpw st data ip now = (Except.error CreateError.aliasTaken, st) := by
  have hstep : create_short_url hashpw st data ip now
      = match st.rows.find? (fun r => r.custom_alias == some a || r.short_code == a) with
        | some _ => (Except.error CreateError.aliasTaken, st)
        | none => createRow hashpw st data ip now := by
    unfold create_short_url
    rw [halias]
  obtain ⟨r, hr, hor⟩ := hex
  have hsome : (st.rows.find?
      fun r => r.custom_alias == some a || r.short_code == a).isSome := by
    rw [List.find?_isSome]
    refine ⟨r, hr, ?_⟩
    rcases hor with h | h <;> simp [h]
  obtain ⟨r2, hr2⟩ := Option.isSome_iff_exists.mp hsome
  rw [hstep, hr2]

/-- Witness for C6 (amended): a second creation with alias `"taken1"`
conflicts and leaves the table unchanged. -/
theorem C6_witness :
    create_short_url id
        ⟨[{ sampleRow with custom_alias := some "taken1" }], 2⟩
        { long_url := "https://b.example/y", custom_alias := some "taken1", title := none,
          description := none, expires_at := none, max_clicks := none, password := none }
        none 0
      = (Except.error CreateError.aliasTaken,
         ⟨[{ sampleRow with custom_alias := some "taken1" }], 2⟩) :=
  C6_alias_conflict id ⟨[{ sampleRow with custom_alias := some "taken1" }], 2⟩
    { long_url := "https://b.example/y", custom_alias := some "taken1", title := none,
      description := none, expires_at := none, max_clicks := none, password := none }
    none 0 "taken1" rfl
    ⟨{ sampleRow with custom_alias := some "taken1" }, by simp, Or.inl rfl⟩

/-- C6 counterexample: the "thus no duplicates" half fails.  Create a
first record whose custom alias is the very string the generator will
assign to id 2 (a valid 6-character alphanumeric alias), then create a
second record with no alias: both creations succeed, and the combined
set of short codes and custom aliases now holds that string twice. -/
theorem C6_counterexample :
    (let st0 : DBState := ⟨[], 1⟩
     let d1 : URLCreate :=
       { long_url := "https://a.example/x", custom_alias := some (generate_short_code 2),
         title := none, description := none, expires_at := none, max_clicks := none,
         password := none }
     let d2 : URLCreate := { d1 with custom_alias := none }
     let r1 := create_short_url id st0 d1 none 0
     let r2 := create_short_url id r1.2 d2 none 0
     (generate_short_code 2).length = 6
       ∧ ((generate_short_code 2).toList.all fun c => c.isAlphanum) = true
       ∧ exceptOk r1.1 = true
       ∧ exceptOk r2.1 = true
       ∧ ¬ (combinedCodes r2.2.rows).Nodup) := by
  decide

/-! ## Claim C9 -/

/-- The `setattr` loop touches exactly the five updatable fields, each
only when provided. -/
theorem applyUpdate_spec (u : URL) (upd : URLUpdate) :
    (applyUpdate u upd).title = upd.title.getD u.title
    ∧ (applyUpdate u upd).description = upd.description.getD u.description
    ∧ (applyUpdate u upd).is_active = upd.is_active.getD u.is_active
    ∧ (applyUpdate u upd).expires_at = upd.expires_at.getD u.expires_at
    ∧ (applyUpdate u upd).max_clicks = upd.max_clicks.getD u.max_clicks
    ∧ (applyUpdate u upd).id = u.id
    ∧ (applyUpdate u upd).long_url = u.long_url
    ∧ (applyUpdate u upd).short_code = u.short_code
    ∧ (applyUpdate u upd).custom_alias = u.custom_alias
    ∧ (applyUpdate u upd).user_id = u.user_id
    ∧ (applyUpdate u upd).creator_ip = u.creator_ip
    ∧ (applyUpdate u upd).click_count = u.click_count
    ∧ (applyUpdate u upd).created_at = u.created_at
    ∧ (applyUpdate u upd).updated_at = u.updated_at
    ∧ (applyUpdate u upd).last_accessed_at = u.last_accessed_at
    ∧ (applyUpdate u upd).password_hash = u.password_hash := by
  rcases upd with ⟨t, d, a, e, m⟩
  cases t <;> cases d <;> cases a <;> cases e <;> cases m <;>
    exact ⟨rfl, rfl, rfl, rfl, rfl, rfl, rfl, rfl, rfl, rfl, rfl, rfl, rfl, rfl, rfl, rfl⟩

/-- C9 counterexample: a PATCH with no fields set succeeds on an
existing record but does not refresh `updated_at` (the row has no net
change, so no UPDATE is emitted): the result still carries the old
timestamp 0, not the current time 5. -/
theorem C9_counterexample :
    (update_url [sampleRow] 1 emptyUpdate 5).1 = some sampleRow
    ∧ sampleRow.updated_at = (⟨0, true⟩ : PyDateTime)
    ∧ (⟨0, true⟩ : PyDateTime) ≠ (⟨5, true⟩ : PyDateTime) := by
  decide

/-- C9 (amended): update reports "not found" on an unresolved id and
changes nothing; on a resolved record it changes exactly the provided
fields, leaves every other stored field unchanged, and refreshes
`updated_at` exactly when the applied fields produce a net change. -/
theorem C9_update_semantics :
    (∀ (db : List URL) (i : Nat) (upd : URLUpdate) (now : Int),
        (∀ r ∈ db, r.id ≠ i) → update_url db i upd now = (none, db))
    ∧ (∀ (db : List URL) (i : Nat) (upd : URLUpdate) (now : Int) (url : URL),
        get_url_by_id db i = some url →
        ∃ res,
          update_url db i upd now
            = (some res, db.map fun r => if r.id = i then res else r)
          ∧ res.title = upd.title.getD url.title
          ∧ res.description = upd.description.getD url.description
          ∧ res.is_active = upd.is_active.getD url.is_active
          ∧ res.expires_at = upd.expires_at.getD url.expires_at
          ∧ res.max_clicks = upd.max_clicks.getD url.max_clicks
          ∧ res.id = url.id
          ∧ res.long_url = url.long_url
          ∧ res.short_code = url.short_code
          ∧ res.custom_alias = url.custom_alias
          ∧ res.user_id = url.user_id
          ∧ res.creator_ip = url.creator_ip
          ∧ res.click_count = url.click_count
          ∧ res.created_at = url.created_at
          ∧ res.last_accessed_at = url.last_accessed_at
          ∧ res.password_hash = url.password_hash
          ∧ res.updated_at
              = (if applyUpdate url upd = url then url.updated_at else ⟨now, true⟩)) := by
  constructor
  · intro db i upd now h
    unfold update_url get_url_by_id
    rw [List.find?_eq_none.mpr fun x hx => by simp [h x hx]]
  · intro db i upd now url hfind
    obtain ⟨h1, h2, h3, h4, h5, h6, h7, h8, h9, h10, h11, h12, h13, h14, h15, h16⟩ :=
      applyUpdate_spec url upd
    have hstep : update_url db i upd now
        = (some (if applyUpdate url upd = url then applyUpdate url upd
                 else { applyUpdate url upd with updated_at := ⟨now, true⟩ }),
           db.map fun r => if r.id = i then
             (if applyUpdate url upd = url then applyUpdate url upd
              else { applyUpdate url upd with updated_at := ⟨now, true⟩ }) else r) := by
      unfold update_url
      rw [hfind]
    by_cases hch : applyUpdate url upd = url
    · refine ⟨applyUpdate url upd, ?_,
        h1, h2, h3, h4, h5, h6, h7, h8, h9, h10, h11, h12, h13, h15, h16, ?_⟩
      · rw [hstep, if_pos hch]
      · rw [if_pos hch, h14]
    · refine ⟨{ applyUpdate url upd with updated_at := ⟨now, true⟩ }, ?_,
        h1, h2, h3, h4, h5, h6, h7, h8, h9, h10, h11, h12, h13, h15, h16, ?_⟩
      · rw [hstep, if_neg hch]
      · rw [if_neg hch]

/-- Witness for C9 (amended): the unresolved-id case on the empty table
and the resolved case on a one-row table. -/
theorem C9_witness :
    update_url [] 1 emptyUpdate 0 = (none, [])
    ∧ ∃ res, update_url [sampleRow] 1 emptyUpdate 5
        = (some res, [sampleRow].map fun r => if r.id = 1 then res else r) := by
  refine ⟨C9_update_semantics.1 [] 1 emptyUpdate 0 (by simp), ?_⟩
  obtain ⟨res, h1, _⟩ := C9_update_semantics.2 [sampleRow] 1 emptyUpdate 5 sampleRow rfl
  exact ⟨res, h1⟩
